import Mathlib

/-!
Verification of the python-haystack core against its specification.

The development shallowly embeds the four source files under scrutiny:

* `haystack/utils.py`   — address validator, pointer address extraction,
  `container_of` / `offsetof` calculus;
* `haystack/types.py`   — the `CTypesProxy` ABI-profile machinery
  (`reload_ctypes`, `set_ctypes`, `is_union_type`);
* `haystack/dump_loader.py` — archive recognition and the strict and lazy
  mapping loaders.

Machine integers are modelled as `Nat` (Python integers are unbounded, so no
wrap-around is introduced by the sources), and fallible Python code (raised
exceptions, `False` returns) is modelled with `Option` / `Except`.

The classes `memory_mapping.MemoryMapping` and `memory_mapping.Mappings` and
the helper `dbg.formatAddress` belong to this repository but are not among the
provided sources; the definitions that stand in for them are modelled from the
specification and say so in their doc comments.
-/

namespace Haystack

/-- Memory-mapping read errors, from the Backing Store contract of the spec. -/
inductive ReadError where
  | Unavailable
  | OutOfRange
deriving DecidableEq, Repr

/-- The backing store of one memory mapping, as chosen by the loaders in
`dump_loader.py`: a fully buffered byte source (the zip branch), a file backed
mapping (large mappings), a dump-file backed mapping (small mappings), or no
backing at all (the lazy loader on a missing content entry). -/
inductive Backing where
  | absent
  | inMemory (bytes : List Nat)
  | fileBacked (bytes : List Nat)
  | dumpFile (bytes : List Nat)
deriving DecidableEq, Repr

/-- One memory mapping: the metadata of one index line of the dump archive
plus a backing store, mirroring the constructor arguments used throughout
`dump_loader.py` (`start, end, permissions, offset, major_device,
minor_device, inode, pathname`). -/
structure MemoryMapping where
  start : Nat
  end_ : Nat
  permissions : String
  offset : Nat
  major_device : Nat
  minor_device : Nat
  inode : Nat
  pathname : String
  backing : Backing
deriving DecidableEq, Repr

/-- Modelled from the spec: address containment of `memory_mapping.MemoryMapping`
(the class is not among the provided sources). The spec defines a mapping as
the half-open range `[start, end)`, so `addr in m` is
`start <= addr < end`. -/
def MemoryMapping.containsAddr (m : MemoryMapping) (addr : Nat) : Bool :=
  decide (m.start ≤ addr ∧ addr < m.end_)

/-- Size in bytes of the mapped range. -/
def MemoryMapping.size (m : MemoryMapping) : Nat :=
  m.end_ - m.start

/-- Modelled from the spec: the Backing Store read contract
(`memory_mapping` is not among the provided sources). `read(offset, length)`
fails with `OutOfRange` if `offset+length` exceeds the mapping size and with
`Unavailable` if the backing is `Absent`; otherwise it yields the bytes. -/
def MemoryMapping.readBytes (m : MemoryMapping) (off len : Nat) :
    Except ReadError (List Nat) :=
  match m.backing with
  | .absent => .error .Unavailable
  | .inMemory bs | .fileBacked bs | .dumpFile bs =>
    if m.size < off + len then .error .OutOfRange
    else .ok ((bs.drop off).take len)

/-- A target type descriptor as consumed by `haystack/utils.py`: the validator
only queries `ctypes.sizeof`, and the offset calculus queries the byte offset
of a named field, so a descriptor is a total size plus a field table. -/
structure StructDesc where
  size : Nat
  fields : List (String × Nat)
deriving DecidableEq, Repr

/-- `ctypes.sizeof` on a target type descriptor. -/
def ctypes_sizeof (t : StructDesc) : Nat := t.size

/-- `haystack.utils.is_valid_address_value`: walk the mappings; on the first
mapping containing `addr`, either return it, or, when a type descriptor is
supplied and `addr + sizeof(structType)` is not in the same mapping, return
`False` (here `none`). There is no special case for `addr = 0` in the body,
only in the docstring. -/
def is_valid_address_value (addr : Nat) (mappings : List MemoryMapping)
    (structType : Option StructDesc := none) : Option MemoryMapping :=
  match mappings with
  | [] => none
  | m :: rest =>
    if m.containsAddr addr then
      match structType with
      | some t =>
        if m.containsAddr (addr + ctypes_sizeof t) then some m else none
      | none => some m
    else is_valid_address_value addr rest structType

/-- A Python object as seen by `haystack.utils.getaddress`: its truth value
(`bool(obj)`) and, when the object has a `contents` attribute, the address of
that dereferenced target (`ctypes.addressof(obj.contents)`). -/
structure CObj where
  truthy : Bool
  contents : Option Nat
deriving DecidableEq, Repr

/-- `haystack.utils.getaddress`: `0` for a falsy object, `0` for an object
without a `contents` attribute, else the address of `obj.contents`. -/
def getaddress (obj : CObj) : Nat :=
  if obj.truthy then
    match obj.contents with
    | none => 0
    | some a => a
  else 0

/-- `haystack.utils.is_valid_address`: extract the address with `getaddress`,
reject `0`, and defer to `is_valid_address_value`. -/
def is_valid_address (obj : CObj) (mappings : List MemoryMapping)
    (structType : Option StructDesc := none) : Option MemoryMapping :=
  let addr := getaddress obj
  if addr = 0 then none
  else is_valid_address_value addr mappings structType

/-- `haystack.utils.offsetof`: the byte offset of member `membername` inside
`typ` (`ctypes.addressof(getattr(T, membername)) - ctypes.addressof(T)`,
which is the field offset recorded in the descriptor field table); fails when
the member does not exist (`getattr` raises). -/
def offsetof (typ : StructDesc) (membername : String) : Option Nat :=
  typ.fields.lookup membername

/-- `haystack.utils.container_of`: pure arithmetic,
`memberaddr - offsetof(typ, membername)`, over unbounded Python integers
(hence `Int`); no validation of the resulting address is performed. -/
def container_of (memberaddr : Int) (typ : StructDesc) (membername : String) :
    Option Int :=
  (offsetof typ membername).map (fun k => memberaddr - (k : Int))

/-! ## `haystack/types.py` — ABI profiles and the `CTypesProxy` machinery -/

/-- An ABI profile triple, in the argument order of
`reload_ctypes(longsize, pointersize, longdoublesize)`. -/
structure Triple where
  longsize : Nat
  pointersize : Nat
  longdoublesize : Nat
deriving DecidableEq, Repr

/-- Sizes of the analysis host (`ctypes.sizeof` of the host `c_long`,
`c_void_p` and `c_longdouble` on a 64-bit Linux analysis machine, as read in
`load_ctypes_default`). -/
def host_longsize : Nat := 8

/-- Host pointer size. -/
def host_pointersize : Nat := 8

/-- Host `long double` size. -/
def host_longdoublesize : Nat := 16

/-- One `CTypesProxy` instance: its identity (Python object identity, here a
creation counter) and the triple it was constructed from.  All the attributes
the constructor computes (`c_long`, `c_longdouble`, `CString`, ...) are
deterministic functions of the triple, defined below. -/
structure CTypesProxy where
  id : Nat
  triple : Triple
deriving DecidableEq, Repr

/-- A ctypes type object as classified by the proxy predicates: a member
copied from the real host ctypes module, the proxy-generated `c_longdouble`
union blob, the proxy-generated `CString` union, or a user-defined record
class deriving from the real `Union` or `Structure`. -/
inductive PyType where
  | hostType (name : String)
  | longdoubleBlob (size : Nat)
  | cstring
  | unionType (name : String)
  | structType (name : String)
deriving DecidableEq, Repr

/-- `issubclass(objtype, self.__real_ctypes.Union)`: the long-double blob and
`CString` are implemented as `Union` subclasses (`__set_float`,
`__set_records`), as is every user-defined union. -/
def isUnionSubclass : PyType → Bool
  | .longdoubleBlob _ => true
  | .cstring => true
  | .unionType _ => true
  | _ => false

/-- The proxy attribute `c_longdouble` as assigned by
`CTypesProxy.__set_float`: the host type when the target width equals the
host width, otherwise a packed one-field union blob of the target width. -/
def CTypesProxy.c_longdouble (p : CTypesProxy) : PyType :=
  if host_longdoublesize = p.triple.longdoublesize then .hostType "c_longdouble"
  else .longdoubleBlob p.triple.longdoublesize

/-- `CTypesProxy.is_union_type` applied to a type object (the
`check_arg_is_type` wrapper only rejects non-type arguments): force-ignore the
proxy `c_longdouble` construct, force-ignore the `CString` construct, else
test `issubclass(objtype, real Union)`. -/
def CTypesProxy.is_union_type (p : CTypesProxy) (objtype : PyType) : Bool :=
  if objtype = p.c_longdouble then false
  else if objtype = PyType.cstring then false
  else isUnionSubclass objtype

/-- The binding of `sys.modules` at key `ctypes`: either the real host module
or a proxy instance. -/
inductive CtypesModule where
  | host
  | proxyInstance (p : CTypesProxy)
deriving DecidableEq, Repr

/-- The module-level mutable state of `haystack/types.py`: the `__PROXIES`
cache keyed by triple, the next Python object identity, and the process-wide
`sys.modules` binding for `ctypes`. -/
structure TypesState where
  proxies : List (Triple × CTypesProxy)
  nextId : Nat
  sysModulesCtypes : CtypesModule
deriving DecidableEq, Repr

/-- The state of a fresh Python process: empty cache, real ctypes module. -/
def initialTypesState : TypesState :=
  { proxies := [], nextId := 0, sysModulesCtypes := .host }

/-- `haystack.types.set_ctypes`: installs a proxy instance as the global
`ctypes` module (`sys.modules` assignment). -/
def set_ctypes (p : CTypesProxy) (s : TypesState) : TypesState :=
  { s with sysModulesCtypes := .proxyInstance p }

/-- Whether `CTypesProxy.__set_long` accepts the target long width: the host
width is taken unchanged, otherwise only 4 and 8 are handled
(`NotImplementedError` for the rest). -/
def supportedLongsize (n : Nat) : Bool :=
  n = host_longsize || n = 4 || n = 8

/-- Whether `CTypesProxy.__set_pointer` accepts the target pointer width,
analogous to `supportedLongsize`. -/
def supportedPointersize (n : Nat) : Bool :=
  n = host_pointersize || n = 4 || n = 8

/-- `CTypesProxy.__init__`: allocate the instance, install it as the global
`ctypes` module (`sys.modules` is assigned *before* `__init_types` runs), then
derive the types — which raises `NotImplementedError` for an unsupported long
or pointer width.  The returned state reflects the mutations performed even on
the raising paths. -/
def mkCTypesProxy (t : Triple) (s : TypesState) :
    Except String CTypesProxy × TypesState :=
  let p : CTypesProxy := ⟨s.nextId, t⟩
  let s1 : TypesState :=
    { s with nextId := s.nextId + 1, sysModulesCtypes := .proxyInstance p }
  if supportedLongsize t.longsize && supportedPointersize t.pointersize then
    (.ok p, s1)
  else (.error "NotImplementedError", s1)

/-- `haystack.types.reload_ctypes`: on a cache hit return the cached instance
(after re-installing it globally via `set_ctypes`); on a miss construct a new
proxy (whose constructor installs itself globally), cache it and return it. -/
def reload_ctypes (t : Triple) (s : TypesState) :
    Except String CTypesProxy × TypesState :=
  match s.proxies.lookup t with
  | some p => (.ok p, set_ctypes p s)
  | none =>
    match mkCTypesProxy t s with
    | (.ok p, s1) => (.ok p, { s1 with proxies := (t, p) :: s1.proxies })
    | (.error e, s1) => (.error e, s1)

/-! ## `haystack/dump_loader.py` — archive recognition and mapping loading -/

/-- Value of a hexadecimal digit, upper or lower case (as accepted by the
Python `int(x, 16)` conversions of the index parser). -/
def hexDigitVal (c : Char) : Option Nat :=
  if '0' ≤ c ∧ c ≤ '9' then some (c.toNat - '0'.toNat)
  else if 'a' ≤ c ∧ c ≤ 'f' then some (c.toNat - 'a'.toNat + 10)
  else if 'A' ≤ c ∧ c ≤ 'F' then some (c.toNat - 'A'.toNat + 10)
  else none

/-- Accumulate hexadecimal digits; fails on the first non-digit. -/
def parseHexCore : List Char → Nat → Option Nat
  | [], acc => some acc
  | c :: cs, acc =>
    match hexDigitVal c with
    | some d => parseHexCore cs (16 * acc + d)
    | none => none

/-- Python `int(x, 16)` on a field of the index: an optional `0x` prefix
followed by at least one hexadecimal digit. -/
def int16 (s : List Char) : Option Nat :=
  let cs :=
    match s with
    | '0' :: 'x' :: rest => rest
    | '0' :: 'X' :: rest => rest
    | rest => rest
  if cs.isEmpty then none else parseHexCore cs 0

/-- Python `int(x)` on the inode field: at least one decimal digit. -/
def int10 (s : List Char) : Option Nat :=
  if s.isEmpty ∨ ¬s.all Char.isDigit then none
  else some (s.foldl (fun acc c => 10 * acc + (c.toNat - '0'.toNat)) 0)

/-- Python `str.strip()`: drop whitespace at both ends. -/
def stripWs (cs : List Char) : List Char :=
  ((cs.dropWhile Char.isWhitespace).reverse.dropWhile Char.isWhitespace).reverse

/-- Python `str.split(sep)` with an explicit one-character separator:
consecutive separators produce empty fields, the empty string yields one empty
field. -/
def splitOnChar (sep : Char) : List Char → List (List Char)
  | [] => [[]]
  | c :: cs =>
    if c = sep then [] :: splitOnChar sep cs
    else
      match splitOnChar sep cs with
      | [] => [[c]]
      | f :: r => (c :: f) :: r

/-- Substring containment on character lists (the Python `in` operator on
strings). -/
def hasSubstr (sub : List Char) : List Char → Bool
  | [] => sub.isEmpty
  | c :: cs => sub.isPrefixOf (c :: cs) || hasSubstr sub cs

/-- Python `sub in s` for strings. -/
def strContains (s sub : String) : Bool :=
  hasSubstr sub.data s.data

/-- `ProcessMemoryDumpLoader._test_tarfile`, applied to the member names of an
already opened tar archive: the index entry `./mappings` must be among the
members and at least one member name must contain the substring `-0x`. -/
def test_tarfile (members : List String) : Bool :=
  if !members.contains "./mappings" then false
  else !(members.filter (fun m => strContains m "-0x")).isEmpty

/-- The content-entry name pattern exactly as the spec words it, kept for
comparison with the recognition predicate of the source:
`<lowercase-hex-start>-<lowercase-hex-end>`, both parts nonempty lowercase
hexadecimal with no `0x` prefix. -/
def isLowerHexDigit (c : Char) : Bool :=
  c.isDigit || ('a' ≤ c && c ≤ 'f')

/-- See `isLowerHexDigit`; the whole-name pattern of the spec. -/
def specEntryNamePattern (s : String) : Bool :=
  match splitOnChar '-' s.data with
  | [a, b] => !a.isEmpty && !b.isEmpty && a.all isLowerHexDigit && b.all isLowerHexDigit
  | _ => false

/-- Modelled from the spec and the recognition predicate: `dbg.formatAddress`
(module `haystack.dbg`, not among the provided sources) renders an address as
lowercase hexadecimal; since `_test_tarfile` requires content-entry names to
contain the substring `-0x`, the rendering carries the `0x` prefix. -/
def formatAddress (addr : Nat) : String :=
  String.mk ('0' :: 'x' :: Nat.toDigits 16 addr)

/-- The parse of one index line: the seven space-separated fields
`start end permissions offset major:minor inode pathname` after decoding. -/
structure MetaLine where
  startAddr : Nat
  endAddr : Nat
  perms : String
  offset : Nat
  majorDev : Nat
  minorDev : Nat
  inode : Nat
  pathname : String
deriving DecidableEq, Repr

/-- Parsing of one index line as done at the top of `loadMappings`:
`l.strip().split(' ')` must yield exactly seven fields (tuple unpacking),
`start`, `end`, `offset` and the `major:minor` device pair are hexadecimal,
`inode` is decimal; any failure raises, modelled as `none`. -/
def parseMetaLine (l : String) : Option MetaLine :=
  match splitOnChar ' ' (stripWs l.data) with
  | [s, e, perms, off, devs, ino, path] =>
    match int16 s, int16 e, int16 off, int10 ino with
    | some sv, some ev, some offv, some inov =>
      match splitOnChar ':' devs with
      | [ma, mi] =>
        match int16 ma, int16 mi with
        | some mav, some miv =>
          some ⟨sv, ev, String.mk perms, offv, mav, miv, inov, String.mk path⟩
        | _, _ => none
      | _ => none
    | _, _, _, _ => none
  | _ => none

/-- The content-entry name rebuilt for one index line
(`"%s-%s" % (dbg.formatAddress(start), dbg.formatAddress(end))`). -/
def entryName (m : MetaLine) : String :=
  formatAddress m.startAddr ++ "-" ++ formatAddress m.endAddr

/-- A dump archive as the loaders see it once opened: whether it was opened as
a zip (else tar), the lines of the `mappings` index entry, the named content
entries, and the normalized dump file name. -/
structure Archive where
  isZip : Bool
  indexLines : List String
  content : List (String × List Nat)
  dumpName : String

/-- The `filePrefix` used to address archive entries: `./` for tar members,
empty for zip members. -/
def Archive.fpfx (a : Archive) : String :=
  if a.isZip then "" else "./"

/-- Loading errors of `loadMappings`: a raising index-line parse, or a missing
content entry (the `KeyError` of the archive entry lookup). -/
inductive LoadError where
  | malformedLine
  | missingContent (entry : String)
deriving DecidableEq, Repr

/-- The mapping built by the strict loader for one parsed index line with
content present: zip archives buffer the whole entry in memory, tar entries
larger than 1,000,000 bytes become file-backed, smaller ones dump-file
backed. -/
def mkMappingStrict (isZip : Bool) (m : MetaLine) (bytes : List Nat) :
    MemoryMapping :=
  { start := m.startAddr, end_ := m.endAddr, permissions := m.perms,
    offset := m.offset, major_device := m.majorDev, minor_device := m.minorDev,
    inode := m.inode, pathname := m.pathname,
    backing :=
      if isZip then .inMemory bytes
      else if 1000000 < m.endAddr - m.startAddr then .fileBacked bytes
      else .dumpFile bytes }

/-- As `mkMappingStrict`, for the lazy loader (file-backed threshold
10,000,000 bytes). -/
def mkMappingLazy (isZip : Bool) (m : MetaLine) (bytes : List Nat) :
    MemoryMapping :=
  { start := m.startAddr, end_ := m.endAddr, permissions := m.perms,
    offset := m.offset, major_device := m.majorDev, minor_device := m.minorDev,
    inode := m.inode, pathname := m.pathname,
    backing :=
      if isZip then .inMemory bytes
      else if 10000000 < m.endAddr - m.startAddr then .fileBacked bytes
      else .dumpFile bytes }

/-- The metadata-only mapping the lazy loader creates when the content entry
is absent. -/
def absentMapping (m : MetaLine) : MemoryMapping :=
  { start := m.startAddr, end_ := m.endAddr, permissions := m.perms,
    offset := m.offset, major_device := m.majorDev, minor_device := m.minorDev,
    inode := m.inode, pathname := m.pathname, backing := .absent }

/-- The line loop of `ProcessMemoryDumpLoader.loadMappings`: parse each line,
look the content entry up in the archive, and abort the whole load on the
first parse failure or missing entry. -/
def loadLinesStrict (a : Archive) : List String → Except LoadError (List MemoryMapping)
  | [] => .ok []
  | l :: ls =>
    match parseMetaLine l with
    | none => .error .malformedLine
    | some meta =>
      match a.content.lookup (a.fpfx ++ entryName meta) with
      | none => .error (.missingContent (entryName meta))
      | some bytes =>
        match loadLinesStrict a ls with
        | .ok ms => .ok (mkMappingStrict a.isZip meta bytes :: ms)
        | .error e => .error e

/-- The line loop of `LazyProcessMemoryDumpLoader.loadMappings`: as the strict
loop, except that a missing content entry (`KeyError`) produces a
metadata-only mapping and the loop continues; parse failures still raise. -/
def loadLinesLazy (a : Archive) : List String → Except LoadError (List MemoryMapping)
  | [] => .ok []
  | l :: ls =>
    match parseMetaLine l with
    | none => .error .malformedLine
    | some meta =>
      match a.content.lookup (a.fpfx ++ entryName meta) with
      | none =>
        match loadLinesLazy a ls with
        | .ok ms => .ok (absentMapping meta :: ms)
        | .error e => .error e
      | some bytes =>
        match loadLinesLazy a ls with
        | .ok ms => .ok (mkMappingLazy a.isZip meta bytes :: ms)
        | .error e => .error e

/-- A Mapping Set: the loaded mappings and the normalized dump identifier. -/
structure Mappings where
  list : List MemoryMapping
  name : String
deriving DecidableEq, Repr

/-- Start-address ordering of mappings, the order of a Mapping Set. -/
def startLE (x y : MemoryMapping) : Prop :=
  x.start ≤ y.start

instance : DecidableRel startLE := fun x y => Nat.decLe x.start y.start

/-- Modelled from the spec: the `memory_mapping.Mappings` constructor (the
class is not among the provided sources).  Per the spec the Mapping Set
"guarantees address order via construction", so construction orders the
mappings by start address. -/
def mkMappings (ms : List MemoryMapping) (nm : String) : Mappings :=
  ⟨ms.insertionSort startLE, nm⟩

/-- `ProcessMemoryDumpLoader.loadMappings`: run the strict line loop over the
index and wrap the result in a Mapping Set tagged with the dump name. -/
def loadMappingsStrict (a : Archive) : Except LoadError Mappings :=
  (loadLinesStrict a a.indexLines).map (fun ms => mkMappings ms a.dumpName)

/-- `LazyProcessMemoryDumpLoader.loadMappings`: the lazy counterpart. -/
def loadMappingsLazy (a : Archive) : Except LoadError Mappings :=
  (loadLinesLazy a a.indexLines).map (fun ms => mkMappings ms a.dumpName)

/-! ## Helper notions and lemmas shared by the claim theorems -/

/-- Two mappings have disjoint half-open ranges. -/
def rangeDisjoint (x y : MemoryMapping) : Prop :=
  x.end_ ≤ y.start ∨ y.end_ ≤ x.start

instance : DecidableRel rangeDisjoint := fun x y => by
  unfold rangeDisjoint; infer_instance

/-- Two parsed index lines describe disjoint half-open ranges. -/
def metaDisjoint (x y : MetaLine) : Prop :=
  x.endAddr ≤ y.startAddr ∨ y.endAddr ≤ x.startAddr

instance : DecidableRel metaDisjoint := fun x y => by
  unfold metaDisjoint; infer_instance

instance : IsTotal MemoryMapping startLE :=
  ⟨fun a b => Nat.le_total a.start b.start⟩

instance : IsTrans MemoryMapping startLE :=
  ⟨fun _ _ _ h1 h2 => Nat.le_trans h1 h2⟩

theorem isPrefixOf_append_self (l t : List Char) : l.isPrefixOf (l ++ t) = true := by
  induction l with
  | nil => simp [List.isPrefixOf]
  | cons a as ih => simp [List.isPrefixOf, ih]

theorem hasSubstr_append_middle (sub : List Char) :
    ∀ xs ys : List Char, hasSubstr sub (xs ++ (sub ++ ys)) = true := by
  intro xs
  induction xs with
  | nil =>
    intro ys
    cases sub with
    | nil =>
      cases ys with
      | nil => rfl
      | cons c cs => simp [hasSubstr]
    | cons a as =>
      simp only [List.nil_append, List.cons_append, hasSubstr]
      have := isPrefixOf_append_self (a :: as) ys
      simp only [List.cons_append] at this
      simp [this]
  | cons x xs ih =>
    intro ys
    simp [hasSubstr, ih ys]

/-! ## Claim theorems -/

/-- C1: the claim (and the docstring of `is_valid_address_value`) says address
`0` is always invalid, before any containment lookup; the code performs no
null check, so a mapping set holding a mapping whose range covers address `0`
validates the null address and returns that mapping. -/
theorem is_valid_address_value_accepts_null :
    is_valid_address_value 0
      [⟨0, 0x1000, "rw-p", 0, 0, 0, 0, "[null-page]", Backing.dumpFile []⟩] none
      = some ⟨0, 0x1000, "rw-p", 0, 0, 0, 0, "[null-page]", Backing.dumpFile []⟩ := by
  decide

/-- C2: for a mapping set with pairwise disjoint ranges, validating an address
`addr` contained in a mapping `m` against a type descriptor `T` returns `m`
exactly when `addr + sizeof(T)` is also within the half-open range of the
*same* mapping `m`, and reports invalid otherwise — in particular even when
`addr + sizeof(T)` lies in an adjacent contiguous mapping. -/
theorem is_valid_address_value_overflow (mappings : List MemoryMapping)
    (hd : mappings.Pairwise rangeDisjoint) (m : MemoryMapping)
    (hm : m ∈ mappings) (addr : Nat) (hc : m.containsAddr addr = true)
    (T : StructDesc) :
    is_valid_address_value addr mappings (some T) =
      if m.containsAddr (addr + ctypes_sizeof T) then some m else none := by
  induction mappings with
  | nil => cases hm
  | cons h t ih =>
    rcases List.mem_cons.mp hm with rfl | hmt
    · simp [is_valid_address_value, hc]
    · have hdisj : rangeDisjoint h m := (List.pairwise_cons.mp hd).1 m hmt
      have hcp : m.start ≤ addr ∧ addr < m.end_ := by
        simpa [MemoryMapping.containsAddr] using hc
      have hnc : h.containsAddr addr = false := by
        simp only [MemoryMapping.containsAddr, decide_eq_false_iff_not]
        rcases hdisj with hd1 | hd1 <;> omega
      simp only [is_valid_address_value, hnc, Bool.false_eq_true, if_false]
      exact ih (List.pairwise_cons.mp hd).2 hmt

/-- C2 witness: mapping `[0x1000, 0x2000)` adjacent to `[0x2000, 0x3000)`; a
type of size `0x20` at `0x1ff0` overflows the first mapping and is rejected
even though `0x2010` lies in the second. -/
theorem is_valid_address_value_overflow_witness :
    is_valid_address_value 0x1ff0
      [⟨0x1000, 0x2000, "rw-p", 0, 0, 0, 0, "A", Backing.dumpFile []⟩,
       ⟨0x2000, 0x3000, "rw-p", 0, 0, 0, 0, "B", Backing.dumpFile []⟩]
      (some ⟨0x20, []⟩) = none := by
  have h := is_valid_address_value_overflow
    [⟨0x1000, 0x2000, "rw-p", 0, 0, 0, 0, "A", Backing.dumpFile []⟩,
     ⟨0x2000, 0x3000, "rw-p", 0, 0, 0, 0, "B", Backing.dumpFile []⟩]
    (by decide)
    ⟨0x1000, 0x2000, "rw-p", 0, 0, 0, 0, "A", Backing.dumpFile []⟩
    (List.mem_cons_self _ _) 0x1ff0 (by decide) ⟨0x20, []⟩
  rw [h]; decide

/-- C6: for a struct descriptor with field `f` recorded at byte offset `k`,
`offsetof` yields `k`, `container_of` applied to `A + k` yields `A`, and
`container_of` is pure arithmetic over every member address, with no
validation of the resulting address. -/
theorem container_of_round_trip (S : StructDesc) (f : String) (k : Nat)
    (h : S.fields.lookup f = some k) (A : Int) :
    offsetof S f = some k ∧
    container_of (A + (k : Int)) S f = some A ∧
    ∀ memberaddr : Int, container_of memberaddr S f = some (memberaddr - (k : Int)) := by
  refine ⟨h, ?_, ?_⟩
  · simp [container_of, offsetof, h]
  · intro memberaddr
    simp [container_of, offsetof, h]

/-- C6 witness: a struct of size 16 with field `next` at offset 8, placed at
address 4096. -/
theorem container_of_round_trip_witness :
    container_of ((4096 : Int) + ((8 : Nat) : Int)) ⟨16, [("next", 8)]⟩ "next"
      = some 4096 :=
  (container_of_round_trip ⟨16, [("next", 8)]⟩ "next" 8 rfl 4096).2.1

/-- C10: a falsy object or an object without a `contents` attribute has
extracted address `0`, and `is_valid_address` reports it invalid for every
mapping set and every type descriptor, without consulting the mappings. -/
theorem getaddress_null_invalid (obj : CObj)
    (h : obj.truthy = false ∨ obj.contents = none) :
    getaddress obj = 0 ∧
    ∀ (mappings : List MemoryMapping) (structType : Option StructDesc),
      is_valid_address obj mappings structType = none := by
  have hz : getaddress obj = 0 := by
    rcases h with h | h
    · simp [getaddress, h]
    · cases ht : obj.truthy <;> simp [getaddress, h, ht]
  exact ⟨hz, fun mappings structType => by simp [is_valid_address, hz]⟩

/-- C10 witness: a falsy object pointing at address 5, against a mapping set
that does contain the address 5. -/
theorem getaddress_null_invalid_witness :
    getaddress ⟨false, some 5⟩ = 0 ∧
    ∀ (mappings : List MemoryMapping) (structType : Option StructDesc),
      is_valid_address ⟨false, some 5⟩ mappings structType = none :=
  getaddress_null_invalid ⟨false, some 5⟩ (Or.inl rfl)

/-- C7: `reload_ctypes` is memoized by its triple — after a call returning a
proxy `p` for triple `t`, a second call with `t` returns the very same cached
instance `p` and allocates no new instance (the identity counter of the state
is unchanged). -/
theorem reload_ctypes_memoized (s : TypesState) (t : Triple) (p : CTypesProxy)
    (s1 : TypesState) (h : reload_ctypes t s = (.ok p, s1)) :
    (reload_ctypes t s1).1 = .ok p ∧ (reload_ctypes t s1).2.nextId = s1.nextId := by
  unfold reload_ctypes mkCTypesProxy at h
  cases hl : s.proxies.lookup t with
  | some q =>
    rw [hl] at h
    injection h with h1 h2
    injection h1 with h1
    subst h1; subst h2
    simp [reload_ctypes, set_ctypes, hl]
  | none =>
    rw [hl] at h
    by_cases hsupp :
        (supportedLongsize t.longsize && supportedPointersize t.pointersize) = true
    · rw [if_pos hsupp] at h
      injection h with h1 h2
      injection h1 with h1
      subst h1; subst h2
      simp [reload_ctypes, List.lookup, set_ctypes]
    · rw [if_neg hsupp] at h
      injection h with h1 _
      exact absurd h1 (by simp)

/-- C7 witness: building the profile for the triple `(4, 4, 12)` from a fresh
process state, then fetching it again. -/
theorem reload_ctypes_memoized_witness :
    (reload_ctypes ⟨4, 4, 12⟩
      { proxies := [(⟨4, 4, 12⟩, ⟨0, ⟨4, 4, 12⟩⟩)], nextId := 1,
        sysModulesCtypes := .proxyInstance ⟨0, ⟨4, 4, 12⟩⟩ }).1
      = .ok ⟨0, ⟨4, 4, 12⟩⟩ ∧
    (reload_ctypes ⟨4, 4, 12⟩
      { proxies := [(⟨4, 4, 12⟩, ⟨0, ⟨4, 4, 12⟩⟩)], nextId := 1,
        sysModulesCtypes := .proxyInstance ⟨0, ⟨4, 4, 12⟩⟩ }).2.nextId = 1 :=
  reload_ctypes_memoized initialTypesState ⟨4, 4, 12⟩ ⟨0, ⟨4, 4, 12⟩⟩ _ rfl

/-- C8: in a profile whose target long-double width differs from the host
width (so the opaque blob is in play), `is_union_type` returns `False` on the
long-double blob and on `CString` although both are implemented as `Union`
subclasses, and returns `True` on every ordinary union. -/
theorem is_union_type_exclusions (p : CTypesProxy)
    (h : p.triple.longdoublesize ≠ host_longdoublesize) :
    p.is_union_type p.c_longdouble = false ∧
    isUnionSubclass p.c_longdouble = true ∧
    p.is_union_type .cstring = false ∧
    isUnionSubclass .cstring = true ∧
    ∀ nm, p.is_union_type (.unionType nm) = true := by
  have hld : p.c_longdouble = .longdoubleBlob p.triple.longdoublesize := by
    simp [CTypesProxy.c_longdouble, Ne.symm h]
  refine ⟨?_, ?_, ?_, rfl, ?_⟩
  · simp [CTypesProxy.is_union_type]
  · rw [hld]; rfl
  · simp [CTypesProxy.is_union_type, hld]
  · intro nm
    simp [CTypesProxy.is_union_type, hld, isUnionSubclass]

/-- C8 witness: the profile `(8, 8, 12)` on a host with a 16-byte long
double. -/
theorem is_union_type_exclusions_witness :
    (⟨0, ⟨8, 8, 12⟩⟩ : CTypesProxy).is_union_type
        (⟨0, ⟨8, 8, 12⟩⟩ : CTypesProxy).c_longdouble = false ∧
    isUnionSubclass (⟨0, ⟨8, 8, 12⟩⟩ : CTypesProxy).c_longdouble = true ∧
    (⟨0, ⟨8, 8, 12⟩⟩ : CTypesProxy).is_union_type .cstring = false ∧
    isUnionSubclass .cstring = true ∧
    ∀ nm, (⟨0, ⟨8, 8, 12⟩⟩ : CTypesProxy).is_union_type (.unionType nm) = true :=
  is_union_type_exclusions ⟨0, ⟨8, 8, 12⟩⟩ (by decide)

/-- C9 counterexample: building the profile for `(4, 8, 12)` from a fresh
process replaces the global `ctypes` module with that proxy, and then
fetching the profile for `(8, 8, 16)` replaces it again — the module-level
reflection state is mutated by every construction or fetch, so the claim that
profile construction has no process-wide side effect is false. -/
theorem reload_ctypes_mutates_global :
    (reload_ctypes ⟨4, 8, 12⟩ initialTypesState).2.sysModulesCtypes
        ≠ initialTypesState.sysModulesCtypes ∧
    (reload_ctypes ⟨4, 8, 12⟩ initialTypesState).2.sysModulesCtypes
        = .proxyInstance ⟨0, ⟨4, 8, 12⟩⟩ ∧
    (reload_ctypes ⟨8, 8, 16⟩
        (reload_ctypes ⟨4, 8, 12⟩ initialTypesState).2).2.sysModulesCtypes
        = .proxyInstance ⟨1, ⟨8, 8, 16⟩⟩ := by
  refine ⟨?_, rfl, rfl⟩
  decide

/-- C9 (amended): constructing or fetching a profile *is* a process-wide side
effect — every successful `reload_ctypes` call installs the returned proxy as
the global `ctypes` module binding. -/
theorem reload_ctypes_installs_global (t : Triple) (s : TypesState)
    (p : CTypesProxy) (s2 : TypesState) (h : reload_ctypes t s = (.ok p, s2)) :
    s2.sysModulesCtypes = .proxyInstance p := by
  unfold reload_ctypes mkCTypesProxy at h
  cases hl : s.proxies.lookup t with
  | some q =>
    rw [hl] at h
    injection h with h1 h2
    injection h1 with h1
    subst h1; subst h2
    rfl
  | none =>
    rw [hl] at h
    by_cases hsupp :
        (supportedLongsize t.longsize && supportedPointersize t.pointersize) = true
    · rw [if_pos hsupp] at h
      injection h with h1 h2
      injection h1 with h1
      subst h1; subst h2
      rfl
    · rw [if_neg hsupp] at h
      injection h with h1 _
      exact absurd h1 (by simp)

/-- C9 amended witness: building `(4, 8, 12)` from a fresh process state. -/
theorem reload_ctypes_installs_global_witness :
    ({ proxies := [(⟨4, 8, 12⟩, ⟨0, ⟨4, 8, 12⟩⟩)], nextId := 1,
       sysModulesCtypes := .proxyInstance ⟨0, ⟨4, 8, 12⟩⟩ } : TypesState).sysModulesCtypes
      = .proxyInstance ⟨0, ⟨4, 8, 12⟩⟩ :=
  reload_ctypes_installs_global ⟨4, 8, 12⟩ initialTypesState ⟨0, ⟨4, 8, 12⟩⟩ _ rfl

/-- C5 counterexample: an archive whose members are the index entry and an
entry named in the pattern the spec words (`<lowercase-hex>-<lowercase-hex>`
with no `0x` prefix) is *not* recognized — the recognition predicate requires
the substring `-0x`, so content-entry names carry a `0x` prefix. -/
theorem test_tarfile_rejects_unprefixed :
    specEntryNamePattern "00400000-00401000" = true ∧
    test_tarfile ["./mappings", "00400000-00401000"] = false := by
  decide

/-- C5 (amended): recognition accepts exactly the member lists containing the
index entry `./mappings` and at least one member whose name contains the
substring `-0x`; the content-entry names the loader derives
(`formatAddress(start)-formatAddress(end)`, lowercase hex *with* the `0x`
prefix) always contain that substring. -/
theorem test_tarfile_iff :
    (∀ members : List String,
      test_tarfile members = true ↔
        ("./mappings" ∈ members ∧ ∃ m ∈ members, strContains m "-0x" = true)) ∧
    ∀ meta : MetaLine, strContains (entryName meta) "-0x" = true := by
  constructor
  · intro members
    unfold test_tarfile
    by_cases hc : "./mappings" ∈ members
    · have hc2 : members.contains "./mappings" = true := List.elem_iff.mpr hc
      simp only [hc2, Bool.not_true, Bool.false_eq_true, if_false,
        Bool.not_eq_true', List.isEmpty_eq_false, ne_eq, List.filter_eq_nil_iff,
        not_forall]
      constructor
      · rintro ⟨x, hx, hpx⟩
        exact ⟨hc, x, hx, by simpa using hpx⟩
      · rintro ⟨-, x, hx, hpx⟩
        exact ⟨x, hx, by simpa using hpx⟩
    · have hc2 : members.contains "./mappings" = false := by
        simpa using fun hcon => hc (List.elem_iff.mp hcon)
      simp [hc2, hc]
  · intro meta
    show hasSubstr "-0x".data (entryName meta).data = true
    have hdata : (entryName meta).data =
        ('0' :: 'x' :: Nat.toDigits 16 meta.startAddr) ++
          ("-0x".data ++ Nat.toDigits 16 meta.endAddr) := by
      simp [entryName, formatAddress, String.data_append]
    rw [hdata]
    exact hasSubstr_append_middle _ _ _

theorem loadLinesStrict_map_range (a : Archive) :
    ∀ (ls : List String) (ms : List MemoryMapping),
      loadLinesStrict a ls = .ok ms →
      ms.map (fun m => (m.start, m.end_)) =
        (ls.filterMap parseMetaLine).map (fun meta => (meta.startAddr, meta.endAddr)) := by
  intro ls
  induction ls with
  | nil =>
    intro ms h
    simp only [loadLinesStrict] at h
    injection h with h
    subst h
    rfl
  | cons l ls ih =>
    intro ms h
    cases hp : parseMetaLine l with
    | none => simp [loadLinesStrict, hp] at h
    | some meta =>
      cases hlk : a.content.lookup (a.fpfx ++ entryName meta) with
      | none => simp [loadLinesStrict, hp, hlk] at h
      | some bytes =>
        cases hrec : loadLinesStrict a ls with
        | error e => simp [loadLinesStrict, hp, hlk, hrec] at h
        | ok ms0 =>
          simp only [loadLinesStrict, hp, hlk, hrec] at h
          injection h with h
          subst h
          simp [List.filterMap_cons, hp, ih ms0 hrec, mkMappingStrict]

theorem loadLinesStrict_missing (a : Archive) :
    ∀ (ls : List String) (k : Nat) (l : String) (meta : MetaLine),
      (∀ x ∈ ls, (parseMetaLine x).isSome = true) →
      ls.get? k = some l → parseMetaLine l = some meta →
      a.content.lookup (a.fpfx ++ entryName meta) = none →
      ∃ nm, loadLinesStrict a ls = .error (.missingContent nm) := by
  intro ls
  induction ls with
  | nil => intro k l meta _ hk; simp at hk
  | cons l0 ls ih =>
    intro k l meta hall hk hl hmiss
    obtain ⟨m0, hm0⟩ :=
      Option.isSome_iff_exists.mp (hall l0 (List.mem_cons_self _ _))
    cases hlk : a.content.lookup (a.fpfx ++ entryName m0) with
    | none => exact ⟨entryName m0, by simp [loadLinesStrict, hm0, hlk]⟩
    | some bytes =>
      cases k with
      | zero =>
        have hll : l0 = l := by
          have : some l0 = some l := hk
          injection this
        subst hll
        rw [hl] at hm0
        injection hm0 with hm0
        subst hm0
        rw [hmiss] at hlk
        simp at hlk
      | succ k =>
        have hk2 : ls.get? k = some l := hk
        obtain ⟨nm, hnm⟩ :=
          ih k l meta (fun x hx => hall x (List.mem_cons_of_mem _ hx)) hk2 hl hmiss
        exact ⟨nm, by simp [loadLinesStrict, hm0, hlk, hnm]⟩

theorem loadLinesLazy_all_parse (a : Archive) :
    ∀ ls : List String, (∀ x ∈ ls, (parseMetaLine x).isSome = true) →
      ∃ ms, loadLinesLazy a ls = .ok ms ∧ ms.length = ls.length := by
  intro ls
  induction ls with
  | nil => exact fun _ => ⟨[], rfl, rfl⟩
  | cons l1 ls1 ih1 =>
    intro hall
    obtain ⟨m1, hm1⟩ :=
      Option.isSome_iff_exists.mp (hall l1 (List.mem_cons_self _ _))
    obtain ⟨ms1, hms1, hlen1⟩ :=
      ih1 (fun x hx => hall x (List.mem_cons_of_mem _ hx))
    cases hlk1 : a.content.lookup (a.fpfx ++ entryName m1) with
    | none =>
      exact ⟨absentMapping m1 :: ms1,
        by simp [loadLinesLazy, hm1, hlk1, hms1], by simp [hlen1]⟩
    | some bytes1 =>
      exact ⟨mkMappingLazy a.isZip m1 bytes1 :: ms1,
        by simp [loadLinesLazy, hm1, hlk1, hms1], by simp [hlen1]⟩

theorem loadLinesLazy_absent_at (a : Archive) :
    ∀ (ls : List String) (k : Nat) (l : String) (meta : MetaLine),
      (∀ x ∈ ls, (parseMetaLine x).isSome = true) →
      ls.get? k = some l → parseMetaLine l = some meta →
      a.content.lookup (a.fpfx ++ entryName meta) = none →
      ∃ ms, loadLinesLazy a ls = .ok ms ∧ ms.length = ls.length ∧
        ms.get? k = some (absentMapping meta) := by
  intro ls
  induction ls with
  | nil => intro k l meta _ hk; simp at hk
  | cons l0 ls ih =>
    intro k l meta hall hk hl hmiss
    obtain ⟨m0, hm0⟩ :=
      Option.isSome_iff_exists.mp (hall l0 (List.mem_cons_self _ _))
    have hallt : ∀ x ∈ ls, (parseMetaLine x).isSome = true :=
      fun x hx => hall x (List.mem_cons_of_mem _ hx)
    have hex : ∃ ms0, loadLinesLazy a ls = .ok ms0 ∧ ms0.length = ls.length :=
      loadLinesLazy_all_parse a ls hallt
    cases k with
    | zero =>
      have hll : l0 = l := by
        have : some l0 = some l := hk
        injection this
      subst hll
      rw [hl] at hm0
      injection hm0 with hm0
      subst hm0
      obtain ⟨ms0, hms0, hlen0⟩ := hex
      exact ⟨absentMapping meta :: ms0,
        by simp [loadLinesLazy, hl, hmiss, hms0], by simp [hlen0], rfl⟩
    | succ k =>
      have hk2 : ls.get? k = some l := hk
      obtain ⟨ms0, hms0, hlen0, hat0⟩ := ih k l meta hallt hk2 hl hmiss
      cases hlk : a.content.lookup (a.fpfx ++ entryName m0) with
      | none =>
        exact ⟨absentMapping m0 :: ms0,
          by simp [loadLinesLazy, hm0, hlk, hms0], by simp [hlen0], hat0⟩
      | some bytes =>
        exact ⟨mkMappingLazy a.isZip m0 bytes :: ms0,
          by simp [loadLinesLazy, hm0, hlk, hms0], by simp [hlen0], hat0⟩

/-- C3: for an archive whose index lines all parse but whose line `k` has no
corresponding content entry, the strict load fails as a whole with a
missing-content error, while the lazy load succeeds with one mapping per
index line; for line `k` it produces a metadata-only mapping whose range,
permissions and pathname match the index line, whose backing is `Absent` and
whose reads all fail with `Unavailable`.  (The mapping metadata/read behavior
is the spec-modelled `memory_mapping` contract.) -/
theorem strict_fails_lazy_tolerates (a : Archive) (k : Nat) (l : String)
    (meta : MetaLine)
    (hall : ∀ x ∈ a.indexLines, (parseMetaLine x).isSome = true)
    (hk : a.indexLines.get? k = some l) (hl : parseMetaLine l = some meta)
    (hmiss : a.content.lookup (a.fpfx ++ entryName meta) = none) :
    (∃ nm, loadMappingsStrict a = .error (.missingContent nm)) ∧
    (∃ M, loadMappingsLazy a = .ok M ∧
      M.list.length = a.indexLines.length ∧
      absentMapping meta ∈ M.list ∧
      (absentMapping meta).start = meta.startAddr ∧
      (absentMapping meta).end_ = meta.endAddr ∧
      (absentMapping meta).permissions = meta.perms ∧
      (absentMapping meta).pathname = meta.pathname ∧
      ∀ off len, (absentMapping meta).readBytes off len
        = .error ReadError.Unavailable) := by
  constructor
  · obtain ⟨nm, hnm⟩ := loadLinesStrict_missing a a.indexLines k l meta hall hk hl hmiss
    exact ⟨nm, by simp [loadMappingsStrict, hnm, Except.map]⟩
  · obtain ⟨ms, hms, hlen, hat⟩ :=
      loadLinesLazy_absent_at a a.indexLines k l meta hall hk hl hmiss
    refine ⟨mkMappings ms a.dumpName,
      by simp [loadMappingsLazy, hms, Except.map], ?_, ?_, rfl, rfl, rfl, rfl,
      fun off len => rfl⟩
    · simp [mkMappings, List.length_insertionSort, hlen]
    · exact (List.mem_insertionSort startLE).mpr (List.get?_mem hat)

/-- C3 witness: a two-line tar archive carrying content only for the first
line; line 1 (`[stack]`) has no content entry. -/
theorem strict_fails_lazy_tolerates_witness :
    (∃ nm, loadMappingsStrict
        ⟨false,
         ["0x1000 0x2000 rwxp 0x0 0:0 0 [heap]",
          "0x3000 0x4000 r-xp 0x0 0:0 0 [stack]"],
         [("./0x1000-0x2000", [7])], "dump"⟩
      = .error (.missingContent nm)) ∧
    (∃ M, loadMappingsLazy
        ⟨false,
         ["0x1000 0x2000 rwxp 0x0 0:0 0 [heap]",
          "0x3000 0x4000 r-xp 0x0 0:0 0 [stack]"],
         [("./0x1000-0x2000", [7])], "dump"⟩ = .ok M ∧
      M.list.length = 2 ∧
      absentMapping ⟨0x3000, 0x4000, "r-xp", 0, 0, 0, 0, "[stack]"⟩ ∈ M.list ∧
      (absentMapping ⟨0x3000, 0x4000, "r-xp", 0, 0, 0, 0, "[stack]"⟩).start = 0x3000 ∧
      (absentMapping ⟨0x3000, 0x4000, "r-xp", 0, 0, 0, 0, "[stack]"⟩).end_ = 0x4000 ∧
      (absentMapping ⟨0x3000, 0x4000, "r-xp", 0, 0, 0, 0, "[stack]"⟩).permissions = "r-xp" ∧
      (absentMapping ⟨0x3000, 0x4000, "r-xp", 0, 0, 0, 0, "[stack]"⟩).pathname = "[stack]" ∧
      ∀ off len, (absentMapping ⟨0x3000, 0x4000, "r-xp", 0, 0, 0, 0, "[stack]"⟩).readBytes off len
        = .error ReadError.Unavailable) :=
  strict_fails_lazy_tolerates
    ⟨false,
     ["0x1000 0x2000 rwxp 0x0 0:0 0 [heap]",
      "0x3000 0x4000 r-xp 0x0 0:0 0 [stack]"],
     [("./0x1000-0x2000", [7])], "dump"⟩
    1 "0x3000 0x4000 r-xp 0x0 0:0 0 [stack]"
    ⟨0x3000, 0x4000, "r-xp", 0, 0, 0, 0, "[stack]"⟩
    (by decide) rfl rfl rfl

/-- C4 counterexample: the loader performs no range validation — an index
line with `start = 0x2000 > end = 0x1000` (content entry present) loads
successfully into a Mapping Set containing a mapping violating
`start < end`. -/
theorem loader_accepts_inverted_range :
    ∃ M, loadMappingsStrict
        ⟨false, ["2000 1000 rwxp 0 0:0 0 [heap]"],
         [("./0x2000-0x1000", [])], "dump"⟩ = .ok M ∧
      ∃ m ∈ M.list, ¬ m.start < m.end_ := by
  refine ⟨⟨[⟨0x2000, 0x1000, "rwxp", 0, 0, 0, 0, "[heap]", .dumpFile []⟩], "dump"⟩,
    rfl, ⟨0x2000, 0x1000, "rwxp", 0, 0, 0, 0, "[heap]", .dumpFile []⟩,
    List.mem_cons_self _ _, by decide⟩

theorem loadLinesLazy_map_range (a : Archive) :
    ∀ (ls : List String) (ms : List MemoryMapping),
      loadLinesLazy a ls = .ok ms →
      ms.map (fun m => (m.start, m.end_)) =
        (ls.filterMap parseMetaLine).map (fun meta => (meta.startAddr, meta.endAddr)) := by
  intro ls
  induction ls with
  | nil =>
    intro ms h
    simp only [loadLinesLazy] at h
    injection h with h
    subst h
    rfl
  | cons l ls ih =>
    intro ms h
    cases hp : parseMetaLine l with
    | none => simp [loadLinesLazy, hp] at h
    | some meta =>
      cases hlk : a.content.lookup (a.fpfx ++ entryName meta) with
      | none =>
        cases hrec : loadLinesLazy a ls with
        | error e => simp [loadLinesLazy, hp, hlk, hrec] at h
        | ok ms0 =>
          simp only [loadLinesLazy, hp, hlk, hrec] at h
          injection h with h
          subst h
          simp [List.filterMap_cons, hp, ih ms0 hrec, absentMapping]
      | some bytes =>
        cases hrec : loadLinesLazy a ls with
        | error e => simp [loadLinesLazy, hp, hlk, hrec] at h
        | ok ms0 =>
          simp only [loadLinesLazy, hp, hlk, hrec] at h
          injection h with h
          subst h
          simp [List.filterMap_cons, hp, ih ms0 hrec, mkMappingLazy]

theorem mkMappings_invariants (ms : List MemoryMapping) (nm : String)
    (parsed : List MetaLine)
    (hkey : ms.map (fun m => (m.start, m.end_)) =
      parsed.map (fun meta => (meta.startAddr, meta.endAddr)))
    (hse : ∀ meta ∈ parsed, meta.startAddr < meta.endAddr)
    (hdisj : parsed.Pairwise metaDisjoint) :
    (∀ m ∈ (mkMappings ms nm).list, m.start < m.end_) ∧
    (mkMappings ms nm).list.Pairwise rangeDisjoint ∧
    (mkMappings ms nm).list.Sorted startLE := by
  simp only [mkMappings]
  have hperm : (ms.insertionSort startLE).Perm ms := List.perm_insertionSort startLE ms
  refine ⟨?_, ?_, List.sorted_insertionSort startLE ms⟩
  · intro m hm
    have hm2 : m ∈ ms := hperm.mem_iff.mp hm
    have hmk : (m.start, m.end_) ∈ ms.map (fun m => (m.start, m.end_)) :=
      List.mem_map_of_mem _ hm2
    rw [hkey] at hmk
    obtain ⟨meta, hmeta, heq⟩ := List.mem_map.mp hmk
    obtain ⟨h1, h2⟩ := Prod.mk.injEq .. ▸ heq
    rw [← h1, ← h2]
    exact hse meta hmeta
  · have hmap : (ms.map (fun m => (m.start, m.end_))).Pairwise
        (fun p q => p.2 ≤ q.1 ∨ q.2 ≤ p.1) := by
      rw [hkey]
      exact List.pairwise_map.mpr (hdisj.imp (fun h => h))
    have h2 := List.pairwise_map.mp hmap
    have h3 : ms.Pairwise rangeDisjoint := h2.imp (fun h => h)
    exact (hperm.pairwise_iff (fun h => h.symm)).mpr h3

/-- C4 (amended): the loader itself validates nothing; for every archive
whose (all successfully parsed) index lines each satisfy `start < end` and
describe pairwise disjoint ranges, a successfully loaded Mapping Set —
whether loaded by the strict or by the lazy loader, including lazy partial
loads that contain metadata-only mappings — satisfies the invariants: every
mapping has `start < end`, ranges are pairwise disjoint, and the set is
ordered by start address (the ordering coming from the spec-modelled set
constructor, not from loader validation). -/
theorem loader_invariants_from_wellformed_index (a : Archive) (M : Mappings)
    (hload : loadMappingsStrict a = .ok M ∨ loadMappingsLazy a = .ok M)
    (hse : ∀ meta ∈ a.indexLines.filterMap parseMetaLine,
      meta.startAddr < meta.endAddr)
    (hdisj : (a.indexLines.filterMap parseMetaLine).Pairwise metaDisjoint) :
    (∀ m ∈ M.list, m.start < m.end_) ∧
    M.list.Pairwise rangeDisjoint ∧
    M.list.Sorted startLE := by
  rcases hload with hload | hload
  · unfold loadMappingsStrict at hload
    cases hstrict : loadLinesStrict a a.indexLines with
    | error e => rw [hstrict] at hload; simp [Except.map] at hload
    | ok ms =>
      rw [hstrict] at hload
      simp only [Except.map] at hload
      injection hload with hload
      subst hload
      exact mkMappings_invariants ms a.dumpName _
        (loadLinesStrict_map_range a a.indexLines ms hstrict) hse hdisj
  · unfold loadMappingsLazy at hload
    cases hlazy : loadLinesLazy a a.indexLines with
    | error e => rw [hlazy] at hload; simp [Except.map] at hload
    | ok ms =>
      rw [hlazy] at hload
      simp only [Except.map] at hload
      injection hload with hload
      subst hload
      exact mkMappings_invariants ms a.dumpName _
        (loadLinesLazy_map_range a a.indexLines ms hlazy) hse hdisj

/-- C4 amended witness: a well-formed two-line index, listed out of address
order, lazily loaded from a partial dump carrying content only for the
second line — the resulting set (one mapping metadata-only) is sorted,
disjoint, and has `start < end` everywhere. -/
theorem loader_invariants_from_wellformed_index_witness :
    (∀ m ∈ (⟨[⟨0x1000, 0x2000, "rwxp", 0, 0, 0, 0, "A", .absent⟩,
              ⟨0x3000, 0x4000, "r-xp", 0, 0, 0, 0, "B", .dumpFile []⟩],
             "dump"⟩ : Mappings).list, m.start < m.end_) ∧
    (⟨[⟨0x1000, 0x2000, "rwxp", 0, 0, 0, 0, "A", .absent⟩,
       ⟨0x3000, 0x4000, "r-xp", 0, 0, 0, 0, "B", .dumpFile []⟩],
      "dump"⟩ : Mappings).list.Pairwise rangeDisjoint ∧
    (⟨[⟨0x1000, 0x2000, "rwxp", 0, 0, 0, 0, "A", .absent⟩,
       ⟨0x3000, 0x4000, "r-xp", 0, 0, 0, 0, "B", .dumpFile []⟩],
      "dump"⟩ : Mappings).list.Sorted startLE :=
  loader_invariants_from_wellformed_index
    ⟨false,
     ["0x3000 0x4000 r-xp 0x0 0:0 0 B", "0x1000 0x2000 rwxp 0x0 0:0 0 A"],
     [("./0x3000-0x4000", [])], "dump"⟩
    ⟨[⟨0x1000, 0x2000, "rwxp", 0, 0, 0, 0, "A", .absent⟩,
      ⟨0x3000, 0x4000, "r-xp", 0, 0, 0, 0, "B", .dumpFile []⟩], "dump"⟩
    (Or.inr rfl) (by decide) (by decide)

end Haystack
